import Mathlib

/-!
# TodoApp: a shallow embedding of `src/component/Todo/TodoApp.jsx`

The component keeps five pieces of React state (`tasks`, `input`,
`isEditing`, `currentId`, `filter`).  Every event handler runs to completion
on the state of the last render, so each handler is embedded as a function
`State → State`.  The wall-clock value read by `Date.now()` inside `addTask`
is an input of the handler.

JavaScript strings are embedded as `String`, numbers used as ids as `Int`,
`null` as `none`.
-/

namespace TodoApp

/-- One record of the `tasks` array: `{ id, text, completed }`. -/
structure Task where
  id : Int
  text : String
  completed : Bool
deriving DecidableEq, Repr

/-- The component state held by the five `useState` hooks. -/
structure State where
  tasks : List Task
  input : String
  isEditing : Bool
  currentId : Option Int
  filter : String
deriving DecidableEq, Repr

/-- The code points that `String.prototype.trim` strips: ECMAScript
`WhiteSpace` (TAB, VT, FF, SP, NBSP, ZWNBSP and the category Zs) and
`LineTerminator` (LF, CR, LS, PS). -/
def isWhiteSpace (c : Char) : Bool :=
  let n := c.toNat
  n == 0x09 || n == 0x0A || n == 0x0B || n == 0x0C || n == 0x0D || n == 0x20
    || n == 0xA0 || n == 0x1680 || (0x2000 ≤ n && n ≤ 0x200A)
    || n == 0x2028 || n == 0x2029 || n == 0x202F || n == 0x205F
    || n == 0x3000 || n == 0xFEFF

/-- The method `String.prototype.trim`: white space is removed from both ends. -/
def trim (s : String) : String :=
  ⟨((s.data.dropWhile isWhiteSpace).reverse.dropWhile isWhiteSpace).reverse⟩

/-- Initial values of the hooks when nothing is stored: `useState([])`,
`useState("")`, `useState(false)`, `useState(null)`, `useState("all")`. -/
def initialState : State :=
  { tasks := [], input := "", isEditing := false, currentId := none, filter := "all" }

/-- The handler `addTask` (lines 31-45); `now` is the value of `Date.now()`. -/
def addTask (now : Int) (s : State) : State :=
  let text := trim s.input
  if text = "" then s
  else if s.isEditing then
    { s with
      tasks := s.tasks.map
        (fun todo => if some todo.id = s.currentId then { todo with text := text } else todo)
      isEditing := false
      currentId := none
      input := "" }
  else
    { s with
      tasks := s.tasks ++ [{ id := now, text := text, completed := false }]
      input := "" }

/-- The handler `deleteTask` (lines 47-54). -/
def deleteTask (id : Int) (s : State) : State :=
  let kept := s.tasks.filter (fun todo => todo.id != id)
  if s.currentId = some id then
    { s with tasks := kept, isEditing := false, currentId := none, input := "" }
  else
    { s with tasks := kept }

/-- The handler `editTask` (lines 56-60). -/
def editTask (id : Int) (text : String) (s : State) : State :=
  { s with isEditing := true, currentId := some id, input := text }

/-- The handler `toggleTask` (lines 62-68). -/
def toggleTask (id : Int) (s : State) : State :=
  { s with
    tasks := s.tasks.map
      (fun todo => if todo.id = id then { todo with completed := !todo.completed } else todo) }

/-- The handler `deleteCompleted` (lines 70-72). -/
def deleteCompleted (s : State) : State :=
  { s with tasks := s.tasks.filter (fun todo => !todo.completed) }

/-- The handler `deleteAll` (line 74). -/
def deleteAll (s : State) : State :=
  { s with tasks := [] }

/-- The `onChange` handler of the text box (line 91): `setInput(e.target.value)`. -/
def setInput (value : String) (s : State) : State :=
  { s with input := value }

/-- The three filter buttons (lines 107, 117, 127): `setFilter(mode)`. -/
def setFilter (mode : String) (s : State) : State :=
  { s with filter := mode }

/-- The derived view `filteredTasks` (lines 76-80). -/
def filteredTasks (s : State) : List Task :=
  s.tasks.filter (fun todo =>
    if s.filter = "done" then todo.completed
    else if s.filter = "todo" then !todo.completed
    else true)

/-- The user actions that the rendered component can fire. -/
inductive Cmd where
  | setInput (value : String)
  | setFilter (mode : String)
  | addTask (now : Int)
  | deleteTask (id : Int)
  | editTask (id : Int) (text : String)
  | toggleTask (id : Int)
  | deleteCompleted
  | deleteAll
deriving DecidableEq, Repr

/-- One user action applied to the state. -/
def step (s : State) : Cmd → State
  | .setInput value => setInput value s
  | .setFilter mode => setFilter mode s
  | .addTask now => addTask now s
  | .deleteTask id => deleteTask id s
  | .editTask id text => editTask id text s
  | .toggleTask id => toggleTask id s
  | .deleteCompleted => deleteCompleted s
  | .deleteAll => deleteAll s

/-- A sequence of user actions, applied from left to right. -/
def run (s : State) (cmds : List Cmd) : State :=
  cmds.foldl step s

/-- The states the component can be in after starting with an empty task list. -/
def Reachable (s : State) : Prop :=
  ∃ s0 cmds, s0.tasks = [] ∧ run s0 cmds = s

/-- The ids of the stored tasks, in list order. -/
def ids (s : State) : List Int :=
  s.tasks.map (fun todo => todo.id)

/-- An add that really appends (`addTask` outside edit mode with a non-blank
input) reads a clock value that no stored task has as its id; every other
action is unconstrained. -/
def freshClock (s : State) : Cmd → Bool
  | .addTask now => s.isEditing || trim s.input == "" || !(ids s).contains now
  | _ => true

/-- Every appending add of the sequence reads a clock value that is not yet
used as an id. -/
def freshRun (s : State) : List Cmd → Bool
  | [] => true
  | c :: cs => freshClock s c && freshRun (step s c) cs

/-- A list holding one task, with a task text waiting in the text box. -/
def oneTaskState : State :=
  { tasks := [⟨1700000000000, "a", false⟩], input := "b", isEditing := false,
    currentId := none, filter := "all" }

/-- Two adds that read the same clock value. -/
def sameClockCmds : List Cmd :=
  [.setInput "a", .addTask 1700000000000, .setInput "b", .addTask 1700000000000]

/-- Two adds that read different clock values, a toggle and an edit. -/
def sampleCmds : List Cmd :=
  [.setInput " a ", .addTask 1700000000000, .setInput "b", .addTask 1700000000001,
   .toggleTask 1700000000000, .editTask 1700000000001 "b", .setInput "  c",
   .addTask 1700000000002]

/-- The completed task 1 is being edited. -/
def editingState : State :=
  { tasks := [⟨1, "a", true⟩, ⟨2, "b", false⟩], input := "a", isEditing := true,
    currentId := some 1, filter := "all" }

/-- The ids of the list are pairwise different. -/
def UniqueIds (s : State) : Prop :=
  (ids s).Nodup

/-- Every stored task has a non-empty text. -/
def TextsNonEmpty (s : State) : Prop :=
  ∀ t ∈ s.tasks, t.text ≠ ""

/-! ## Helper lemmas -/

theorem map_id_of_preserving (f : Task → Task) (hf : ∀ t, (f t).id = t.id) (l : List Task) :
    (l.map f).map (fun todo => todo.id) = l.map (fun todo => todo.id) := by
  induction l with
  | nil => rfl
  | cons a l ih => simp [hf]

theorem map_eq_self_of_forall (f : Task → Task) (l : List Task)
    (hf : ∀ t ∈ l, f t = t) : l.map f = l := by
  induction l with
  | nil => rfl
  | cons a l ih =>
    simp only [List.map_cons]
    rw [hf a (List.mem_cons_self a l), ih (fun t ht => hf t (List.mem_cons_of_mem a ht))]

theorem run_cons (s : State) (c : Cmd) (cs : List Cmd) :
    run s (c :: cs) = run (step s c) cs := rfl

/-- The method `trim` on sample inputs: white space at both ends goes, white
space inside stays, a blank input becomes the empty string. -/
theorem trim_samples :
    trim "  buy milk \n" = "buy milk" ∧ trim " \t " = "" ∧ trim "" = "" ∧ trim "a" = "a" := by
  decide

/-! ## addTask -/

/-- C1 (as the code behaves): outside edit mode and with a non-blank input,
`addTask` appends exactly one task at the end; that task has the trimmed input
as text, `completed = false`, and the clock value as id, which differs from
every earlier id whenever the clock value is not already an id of the list. -/
theorem addTask_appends (now : Int) (s : State)
    (hidle : s.isEditing = false) (htext : trim s.input ≠ "") :
    ∃ x : Task, (addTask now s).tasks = s.tasks ++ [x] ∧ x.text = trim s.input
      ∧ x.completed = false ∧ x.id = now
      ∧ (now ∉ ids s → ∀ t ∈ s.tasks, x.id ≠ t.id) := by
  refine ⟨⟨now, trim s.input, false⟩, ?_, rfl, rfl, rfl, ?_⟩
  · simp [addTask, htext, hidle]
  · intro hfresh t ht heq
    apply hfresh
    simp only [ids, List.mem_map]
    exact ⟨t, ht, heq.symm⟩

theorem addTask_appends_witness :
    ∃ x : Task, (addTask 1700000000001 oneTaskState).tasks = oneTaskState.tasks ++ [x]
      ∧ x.text = trim oneTaskState.input ∧ x.completed = false ∧ x.id = 1700000000001
      ∧ (1700000000001 ∉ ids oneTaskState → ∀ t ∈ oneTaskState.tasks, x.id ≠ t.id) :=
  addTask_appends 1700000000001 oneTaskState (by decide) (by decide)

/-- C1 (as stated) fails: with the clock value 1700000000000 the task appended
to `oneTaskState` gets the id that the stored task already has. -/
theorem addTask_id_not_fresh :
    oneTaskState.isEditing = false ∧ trim oneTaskState.input ≠ "" ∧
    ¬ ∃ x : Task, (addTask 1700000000000 oneTaskState).tasks = oneTaskState.tasks ++ [x]
        ∧ x.text = trim oneTaskState.input ∧ x.completed = false
        ∧ ∀ t ∈ oneTaskState.tasks, x.id ≠ t.id := by
  refine ⟨by decide, by decide, ?_⟩
  rintro ⟨x, hx, -, -, hfresh⟩
  have hlast : (addTask 1700000000000 oneTaskState).tasks
      = oneTaskState.tasks ++ [⟨1700000000000, "b", false⟩] := by decide
  rw [hlast] at hx
  have hxeq : (⟨1700000000000, "b", false⟩ : Task) = x := by
    simpa using List.append_cancel_left hx
  apply hfresh ⟨1700000000000, "a", false⟩ (by simp [oneTaskState])
  rw [← hxeq]

/-- C2: when the trimmed input is empty, `addTask` returns the state it was
given: task list, edit flag, current edit id and pending input are unchanged,
in edit mode or not. -/
theorem addTask_blank_noop (now : Int) (s : State) (hblank : trim s.input = "") :
    addTask now s = s := by
  simp [addTask, hblank]

theorem addTask_blank_noop_witness :
    trim (setInput " \t\n" editingState).input = ""
      ∧ addTask 1700000000000 (setInput " \t\n" editingState) = setInput " \t\n" editingState :=
  ⟨by decide, addTask_blank_noop 1700000000000 (setInput " \t\n" editingState) (by decide)⟩

/-! ## deleteTask -/

/-- C4: `deleteTask id` keeps exactly the tasks whose id differs from `id`, in
their original order (so nothing changes when no task has that id); when `id`
is the current edit id, edit mode is switched off, the edit id cleared and the
input emptied, and otherwise these three are left as they were. -/
theorem deleteTask_spec (id : Int) (s : State) :
    (deleteTask id s).tasks = s.tasks.filter (fun t => decide (t.id ≠ id))
      ∧ List.Sublist (deleteTask id s).tasks s.tasks
      ∧ (∀ t, t ∈ (deleteTask id s).tasks ↔ t ∈ s.tasks ∧ t.id ≠ id)
      ∧ ((∀ t ∈ s.tasks, t.id ≠ id) → (deleteTask id s).tasks = s.tasks)
      ∧ (s.currentId = some id →
          (deleteTask id s).isEditing = false ∧ (deleteTask id s).currentId = none
            ∧ (deleteTask id s).input = "")
      ∧ (s.currentId ≠ some id →
          (deleteTask id s).isEditing = s.isEditing
            ∧ (deleteTask id s).currentId = s.currentId
            ∧ (deleteTask id s).input = s.input) := by
  have htasks : (deleteTask id s).tasks = s.tasks.filter (fun t => decide (t.id ≠ id)) := by
    have hpred : (fun todo : Task => todo.id != id) = (fun t => decide (t.id ≠ id)) := by
      funext t
      by_cases h : t.id = id <;> simp [h]
    unfold deleteTask
    split <;> simp only [hpred]
  refine ⟨htasks, ?_, ?_, ?_, ?_, ?_⟩
  · rw [htasks]; exact List.filter_sublist s.tasks
  · intro t; rw [htasks]; simp [List.mem_filter]
  · intro habsent
    rw [htasks, List.filter_eq_self]
    intro t ht
    simpa using habsent t ht
  · intro hcur; simp [deleteTask, hcur]
  · intro hcur; simp [deleteTask, hcur]

/-- C4 at a concrete state: deleting the edited task 1 of `editingState`
leaves task 2 and leaves edit mode; deleting task 2 keeps the edit of task 1. -/
theorem deleteTask_spec_witness :
    (deleteTask 1 editingState).tasks = [⟨2, "b", false⟩]
      ∧ (deleteTask 1 editingState).isEditing = false
      ∧ (deleteTask 1 editingState).currentId = none
      ∧ (deleteTask 1 editingState).input = ""
      ∧ (deleteTask 2 editingState).isEditing = true
      ∧ (deleteTask 2 editingState).currentId = some 1
      ∧ (deleteTask 2 editingState).input = "a"
      ∧ (deleteTask 3 editingState).tasks = editingState.tasks := by
  have h1 := deleteTask_spec 1 editingState
  have h2 := deleteTask_spec 2 editingState
  have h3 := deleteTask_spec 3 editingState
  obtain ⟨e1, -, -, -, c1, -⟩ := h1
  obtain ⟨-, -, -, -, -, c2⟩ := h2
  obtain ⟨-, -, -, a3, -, -⟩ := h3
  obtain ⟨c11, c12, c13⟩ := c1 (by decide)
  obtain ⟨c21, c22, c23⟩ := c2 (by decide)
  refine ⟨?_, c11, c12, c13, ?_, ?_, ?_, a3 (by decide)⟩
  · rw [e1]; decide
  · rw [c21]; rfl
  · rw [c22]; rfl
  · rw [c23]; rfl

/-! ## addTask in edit mode -/

/-- C5: in edit mode with current edit id `id` and a non-blank input, `addTask`
maps the list position by position: id and `completed` of every task are kept,
a task with id `id` gets the trimmed input as text, every other task is
unchanged; the list is unchanged when no task has the id; and the result is
out of edit mode with the input emptied. -/
theorem addTask_update (now id : Int) (s : State)
    (hedit : s.isEditing = true) (hcur : s.currentId = some id)
    (htext : trim s.input ≠ "") :
    List.Forall₂
        (fun old new => new.id = old.id ∧ new.completed = old.completed
          ∧ (old.id = id → new.text = trim s.input) ∧ (old.id ≠ id → new = old))
        s.tasks (addTask now s).tasks
      ∧ (addTask now s).tasks.length = s.tasks.length
      ∧ ((∀ t ∈ s.tasks, t.id ≠ id) → (addTask now s).tasks = s.tasks)
      ∧ (addTask now s).isEditing = false ∧ (addTask now s).currentId = none
      ∧ (addTask now s).input = "" := by
  have htasks : (addTask now s).tasks
      = s.tasks.map (fun todo => if todo.id = id then { todo with text := trim s.input } else todo) := by
    simp [addTask, htext, hedit, hcur]
  refine ⟨?_, ?_, ?_, ?_, ?_, ?_⟩
  · rw [htasks, List.forall₂_map_right_iff]
    apply List.forall₂_same.mpr
    intro t _
    by_cases h : t.id = id <;> simp [h]
  · rw [htasks, List.length_map]
  · intro habsent
    rw [htasks]
    apply map_eq_self_of_forall
    intro t ht
    simp [habsent t ht]
  · simp [addTask, htext, hedit]
  · simp [addTask, htext, hedit]
  · simp [addTask, htext, hedit]

theorem addTask_update_witness :
    (addTask 1700000000000 (setInput " z " editingState)).tasks = [⟨1, "z", true⟩, ⟨2, "b", false⟩]
      ∧ (addTask 1700000000000 (setInput " z " editingState)).isEditing = false
      ∧ (addTask 1700000000000 (setInput " z " editingState)).currentId = none := by
  have h := addTask_update 1700000000000 1 (setInput " z " editingState)
    (by decide) (by decide) (by decide)
  exact ⟨by decide, h.2.2.2.1, h.2.2.2.2.1⟩

/-! ## toggleTask -/

/-- C6: two successive `toggleTask id` give back the original state, so every
`completed` field has its original value; one `toggleTask id` with an id that
no task has leaves the list unchanged. -/
theorem toggleTask_involution (id : Int) (s : State) :
    toggleTask id (toggleTask id s) = s
      ∧ ((∀ t ∈ s.tasks, t.id ≠ id) → (toggleTask id s).tasks = s.tasks) := by
  constructor
  · have hmap : (s.tasks.map
        (fun todo => if todo.id = id then { todo with completed := !todo.completed } else todo)).map
        (fun todo => if todo.id = id then { todo with completed := !todo.completed } else todo)
        = s.tasks := by
      rw [List.map_map]
      apply map_eq_self_of_forall
      intro t _
      by_cases h : t.id = id
      · cases t
        simp_all
      · simp [h]
    cases s
    simp only [toggleTask] at hmap ⊢
    rw [hmap]
  · intro habsent
    simp only [toggleTask]
    apply map_eq_self_of_forall
    intro t ht
    simp [habsent t ht]

/-- C6 at a concrete state: toggling task 2 of `editingState` flips it, toggling
it again restores the state, and toggling the absent id 3 changes nothing. -/
theorem toggleTask_involution_witness :
    (toggleTask 2 editingState).tasks = [⟨1, "a", true⟩, ⟨2, "b", true⟩]
      ∧ toggleTask 2 (toggleTask 2 editingState) = editingState
      ∧ (toggleTask 3 editingState).tasks = editingState.tasks :=
  ⟨by decide, (toggleTask_involution 2 editingState).1,
    (toggleTask_involution 3 editingState).2 (by decide)⟩

/-! ## filteredTasks -/

/-- C7: for every task list, the view in mode `all` is the list itself, in
mode `done` it is the sub-list of the completed tasks and in mode `todo` the
sub-list of the tasks not completed, each in list order; the view is a value
computed from the state, and choosing a mode leaves the task list as it was. -/
theorem filteredTasks_spec (s : State) :
    filteredTasks (setFilter "all" s) = s.tasks
      ∧ filteredTasks (setFilter "done" s) = s.tasks.filter (fun t => decide (t.completed = true))
      ∧ filteredTasks (setFilter "todo" s) = s.tasks.filter (fun t => decide (t.completed = false))
      ∧ List.Sublist (filteredTasks (setFilter "done" s)) s.tasks
      ∧ List.Sublist (filteredTasks (setFilter "todo" s)) s.tasks
      ∧ (∀ t, t ∈ filteredTasks (setFilter "done" s) ↔ t ∈ s.tasks ∧ t.completed = true)
      ∧ (∀ t, t ∈ filteredTasks (setFilter "todo" s) ↔ t ∈ s.tasks ∧ t.completed = false)
      ∧ (∀ mode, (setFilter mode s).tasks = s.tasks) := by
  have hall : filteredTasks (setFilter "all" s) = s.tasks := by
    simp [filteredTasks, setFilter]
  have hdone : filteredTasks (setFilter "done" s)
      = s.tasks.filter (fun t => decide (t.completed = true)) := by
    simp [filteredTasks, setFilter]
  have htodo : filteredTasks (setFilter "todo" s)
      = s.tasks.filter (fun t => decide (t.completed = false)) := by
    have hpred : (fun todo : Task => !todo.completed) = (fun t => decide (t.completed = false)) := by
      funext t
      cases t.completed <;> rfl
    simp only [filteredTasks, setFilter]
    rw [← hpred]
    congr 1
  refine ⟨hall, hdone, htodo, ?_, ?_, ?_, ?_, fun _ => rfl⟩
  · rw [hdone]; exact List.filter_sublist s.tasks
  · rw [htodo]; exact List.filter_sublist s.tasks
  · intro t; rw [hdone]; simp [List.mem_filter]
  · intro t; rw [htodo]; simp [List.mem_filter]

/-! ## deleteCompleted -/

/-- C8: after `deleteCompleted` the view in mode `done` is empty, whether the
mode was chosen before or after the deletion. -/
theorem deleteCompleted_done_empty (s : State) :
    filteredTasks (setFilter "done" (deleteCompleted s)) = []
      ∧ filteredTasks (deleteCompleted (setFilter "done" s)) = [] := by
  constructor <;>
    simp [filteredTasks, setFilter, deleteCompleted, List.filter_filter, List.filter_eq_nil_iff]

/-! ## Edit mode and bulk deletion -/

/-- C9 evaluated at `editingState` (task 1 is completed and being edited):
`deleteTask 1` goes back to Idle, but `deleteAll` and `deleteCompleted` remove
task 1 and stay in edit mode with current edit id 1; a text submitted
afterwards is dropped without being stored. -/
theorem bulk_delete_keeps_edit_mode :
    (editingState.isEditing = true ∧ editingState.currentId = some 1
        ∧ ⟨1, "a", true⟩ ∈ editingState.tasks)
      ∧ ((deleteTask 1 editingState).isEditing = false
        ∧ (deleteTask 1 editingState).currentId = none)
      ∧ ((deleteAll editingState).tasks = []
        ∧ (deleteAll editingState).isEditing = true
        ∧ (deleteAll editingState).currentId = some 1)
      ∧ ((deleteCompleted editingState).tasks = [⟨2, "b", false⟩]
        ∧ (deleteCompleted editingState).isEditing = true
        ∧ (deleteCompleted editingState).currentId = some 1)
      ∧ (addTask 1700000000000 (setInput "new" (deleteAll editingState))).tasks = [] := by
  decide

/-! ## Invariants of the reachable states -/

theorem step_uniqueIds (s : State) (c : Cmd) (hs : UniqueIds s)
    (hfresh : freshClock s c = true) : UniqueIds (step s c) := by
  unfold UniqueIds ids at *
  cases c with
  | setInput value => exact hs
  | setFilter mode => exact hs
  | addTask now =>
    simp only [step, addTask]
    split
    · exact hs
    · rename_i htext
      split
      · rename_i hedit
        simp only []
        rw [map_id_of_preserving _ (fun t => by split <;> rfl)]
        exact hs
      · rename_i hedit
        have hnew : now ∉ s.tasks.map (fun todo => todo.id) := by
          simp only [freshClock, ids, Bool.or_eq_true, Bool.not_eq_true', beq_iff_eq,
            List.contains_eq_any_beq, List.any_eq_false] at hfresh
          rcases hfresh with (h | h) | h
          · exact absurd h hedit
          · exact absurd h htext
          · intro hmem
            exact h now hmem (by simp)
        simp only [List.map_append, List.map_cons, List.map_nil]
        refine List.Nodup.append hs (List.nodup_singleton now) ?_
        intro a ha hb
        rw [List.mem_singleton] at hb
        exact hnew (hb ▸ ha)
  | deleteTask id =>
    simp only [step, deleteTask]
    split <;> exact hs.sublist ((List.filter_sublist s.tasks).map _)
  | editTask id text => exact hs
  | toggleTask id =>
    simp only [step, toggleTask]
    rw [map_id_of_preserving _ (fun t => by split <;> rfl)]
    exact hs
  | deleteCompleted =>
    exact hs.sublist ((List.filter_sublist s.tasks).map _)
  | deleteAll => exact List.nodup_nil

theorem run_uniqueIds (cmds : List Cmd) :
    ∀ s : State, UniqueIds s → freshRun s cmds = true → UniqueIds (run s cmds) := by
  induction cmds with
  | nil => intro s hs _; exact hs
  | cons c cs ih =>
    intro s hs hfresh
    simp only [freshRun, Bool.and_eq_true] at hfresh
    rw [run_cons]
    exact ih (step s c) (step_uniqueIds s c hs hfresh.1) hfresh.2

theorem step_textsNonEmpty (s : State) (c : Cmd) (hs : TextsNonEmpty s) :
    TextsNonEmpty (step s c) := by
  unfold TextsNonEmpty at *
  cases c with
  | setInput value => exact hs
  | setFilter mode => exact hs
  | addTask now =>
    simp only [step, addTask]
    split
    · exact hs
    · rename_i htext
      split
      · intro t ht
        simp only [List.mem_map] at ht
        obtain ⟨u, hu, rfl⟩ := ht
        split
        · exact htext
        · exact hs u hu
      · intro t ht
        simp only [List.mem_append, List.mem_singleton] at ht
        rcases ht with ht | rfl
        · exact hs t ht
        · exact htext
  | deleteTask id =>
    simp only [step, deleteTask]
    split <;> exact fun t ht => hs t (List.mem_of_mem_filter ht)
  | editTask id text => exact hs
  | toggleTask id =>
    simp only [step, toggleTask]
    intro t ht
    simp only [List.mem_map] at ht
    obtain ⟨u, hu, rfl⟩ := ht
    split
    · exact hs u hu
    · exact hs u hu
  | deleteCompleted =>
    exact fun t ht => hs t (List.mem_of_mem_filter ht)
  | deleteAll =>
    intro t ht
    simp [step, deleteAll] at ht

theorem run_textsNonEmpty (cmds : List Cmd) :
    ∀ s : State, TextsNonEmpty s → TextsNonEmpty (run s cmds) := by
  induction cmds with
  | nil => intro s hs; exact hs
  | cons c cs ih =>
    intro s hs
    rw [run_cons]
    exact ih (step s c) (step_textsNonEmpty s c hs)

/-- C3 (as the code behaves): starting from an empty task list, after any
sequence of user actions in which every add that appends a task reads a clock
value not yet used as an id of the list, no two tasks share an id. -/
theorem reachable_uniqueIds (s0 : State) (cmds : List Cmd)
    (hempty : s0.tasks = []) (hfresh : freshRun s0 cmds = true) :
    (ids (run s0 cmds)).Nodup := by
  apply run_uniqueIds cmds s0 _ hfresh
  simp [UniqueIds, ids, hempty]

theorem reachable_uniqueIds_witness :
    ids (run initialState sampleCmds) = [1700000000000, 1700000000001]
      ∧ (ids (run initialState sampleCmds)).Nodup :=
  ⟨by decide, reachable_uniqueIds initialState sampleCmds (by decide) (by decide)⟩

/-- C3 (as stated) fails: two adds that read the same clock value lead from
the initial state to a reachable state in which both tasks have the same id. -/
theorem reachable_duplicate_ids :
    Reachable (run initialState sameClockCmds)
      ∧ (run initialState sameClockCmds).tasks
          = [⟨1700000000000, "a", false⟩, ⟨1700000000000, "b", false⟩]
      ∧ ¬ (ids (run initialState sameClockCmds)).Nodup :=
  ⟨⟨initialState, sameClockCmds, rfl, rfl⟩, by decide, by decide⟩

/-- C10: in every state reachable from an empty task list through any sequence
of user actions (input changes, `editTask` with any text, `addTask` in add or
update mode, `deleteTask`, `toggleTask`, `deleteCompleted`, `deleteAll`, filter
changes), every stored task has a non-empty text. -/
theorem reachable_textsNonEmpty (s : State) (hreach : Reachable s) :
    ∀ t ∈ s.tasks, t.text ≠ "" := by
  obtain ⟨s0, cmds, hempty, rfl⟩ := hreach
  apply run_textsNonEmpty cmds s0
  intro t ht
  simp [hempty] at ht

theorem reachable_textsNonEmpty_witness :
    (run initialState sampleCmds).tasks
        = [⟨1700000000000, "a", true⟩, ⟨1700000000001, "c", false⟩]
      ∧ ∀ t ∈ (run initialState sampleCmds).tasks, t.text ≠ "" :=
  ⟨by decide,
    reachable_textsNonEmpty (run initialState sampleCmds) ⟨initialState, sampleCmds, rfl, rfl⟩⟩

end TodoApp
